import Mathlib

/-!
Shallow embedding of the viewport-and-pagination engine of the `stu` TUI
(src/src/widget/scroll_lines.rs), together with theorems settling the
specification claims about it.

External library behaviour is represented as follows:
* `textwrap::wrap(line, width).len()` (the number of sub-lines the textwrap
  crate produces) is a parameter `wc : String → Nat → Nat` threaded through
  every definition that calls it; the library guarantees the result is at
  least 1, which appears as a hypothesis where needed.
* A ratatui `text::Line` enters the embedded code only through `Line::width`
  and the length of the line vector, so it is embedded as its width.
-/

namespace Stu

/-- ratatui `text::Line`: the embedded code only reads its rendered width
(`Line::width`), so the embedding keeps just that. -/
structure Line where
  width : Nat
deriving Repr, DecidableEq

/-- The `ScrollEvent` enum of scroll_lines.rs (the pending one-shot scroll
command). `end` is a Lean keyword, hence `toEnd`. -/
inductive ScrollEvent where
  | none
  | forward
  | backward
  | pageForward
  | pageBackward
  | top
  | toEnd
  | right
  | left
deriving Repr, DecidableEq

/-- The `ScrollLinesOptions` struct of scroll_lines.rs. -/
structure ScrollLinesOptions where
  number : Bool
  wrap : Bool
deriving Repr, DecidableEq

/-- The `ScrollLinesState` struct of scroll_lines.rs. -/
structure ScrollLinesState where
  lines : List Line
  original_lines : List String
  max_digits : Nat
  max_line_width : Nat
  v_offset : Nat
  h_offset : Nat
  options : ScrollLinesOptions
  title : String
  scroll_event : ScrollEvent
deriving Repr, DecidableEq

/-- Fuel-driven decimal digit counter (the fuel argument only makes the
recursion structural; `n` itself is always enough fuel). -/
def digitsAux : Nat → Nat → Nat
  | 0, _ => 1
  | fuel + 1, n => if n < 10 then 1 else digitsAux fuel (n / 10)

/-- Modelled from the spec: `crate::util::digits` (src/util.rs is not among
the provided sources). Spec section 4.1: `max_label_width = digit_count(N)`
(0 lines gives width 1, otherwise the number of decimal digits of N). -/
def digits (n : Nat) : Nat :=
  if n = 0 then 1 else digitsAux n n

/-- `ScrollLinesState::new` (scroll_lines.rs:56): stores both sequences,
computes `max_digits` and `max_line_width`, and leaves the remaining fields
at their defaults (offsets 0, no pending event). -/
def ScrollLinesState.new (lines : List Line) (original_lines : List String)
    (title : String) (options : ScrollLinesOptions) : ScrollLinesState :=
  { lines := lines
    original_lines := original_lines
    max_digits := digits lines.length
    max_line_width := (lines.map Line.width).foldr max 0
    v_offset := 0
    h_offset := 0
    options := options
    title := title
    scroll_event := ScrollEvent.none }

/-- `scroll_forward` (scroll_lines.rs:76). -/
def ScrollLinesState.scroll_forward (s : ScrollLinesState) : ScrollLinesState :=
  { s with scroll_event := ScrollEvent.forward }

/-- `scroll_backward` (scroll_lines.rs:80). -/
def ScrollLinesState.scroll_backward (s : ScrollLinesState) : ScrollLinesState :=
  { s with scroll_event := ScrollEvent.backward }

/-- `scroll_page_forward` (scroll_lines.rs:84). -/
def ScrollLinesState.scroll_page_forward (s : ScrollLinesState) : ScrollLinesState :=
  { s with scroll_event := ScrollEvent.pageForward }

/-- `scroll_page_backward` (scroll_lines.rs:88). -/
def ScrollLinesState.scroll_page_backward (s : ScrollLinesState) : ScrollLinesState :=
  { s with scroll_event := ScrollEvent.pageBackward }

/-- `scroll_to_top` (scroll_lines.rs:92). -/
def ScrollLinesState.scroll_to_top (s : ScrollLinesState) : ScrollLinesState :=
  { s with scroll_event := ScrollEvent.top }

/-- `scroll_to_end` (scroll_lines.rs:96). -/
def ScrollLinesState.scroll_to_end (s : ScrollLinesState) : ScrollLinesState :=
  { s with scroll_event := ScrollEvent.toEnd }

/-- `scroll_right` (scroll_lines.rs:100). -/
def ScrollLinesState.scroll_right (s : ScrollLinesState) : ScrollLinesState :=
  { s with scroll_event := ScrollEvent.right }

/-- `scroll_left` (scroll_lines.rs:104). -/
def ScrollLinesState.scroll_left (s : ScrollLinesState) : ScrollLinesState :=
  { s with scroll_event := ScrollEvent.left }

/-- `toggle_wrap` (scroll_lines.rs:108): flips `options.wrap` and zeroes the
horizontal offset. -/
def ScrollLinesState.toggle_wrap (s : ScrollLinesState) : ScrollLinesState :=
  { s with options := { s.options with wrap := !s.options.wrap }, h_offset := 0 }

/-- `toggle_number` (scroll_lines.rs:113): flips `options.number` only. -/
def ScrollLinesState.toggle_number (s : ScrollLinesState) : ScrollLinesState :=
  { s with options := { s.options with number := !s.options.number } }

/-- `wrapped_line_width_iter` (scroll_lines.rs:302): heights of the lines from
`offset`, at most `height` of them; each height is the textwrap sub-line count
at `width` when `wrap` is on, else 1. -/
def wrapped_line_width_iter (wc : String → Nat → Nat) (lines : List String)
    (offset width height : Nat) (wrap : Bool) : List Nat :=
  ((lines.drop offset).take height).map fun line =>
    if wrap then wc line width else 1

/-- `wrapped_reversed_line_width_iter` (scroll_lines.rs:319): heights of the
lines strictly before `offset`, in reverse order, at most `height` of them. -/
def wrapped_reversed_line_width_iter (wc : String → Nat → Nat) (lines : List String)
    (offset width height : Nat) (wrap : Bool) : List Nat :=
  (((lines.take offset).reverse).take height).map fun line =>
    if wrap then wc line width else 1

/-- The `for` loop of the `PageForward` arm of `handle_scroll_events`
(scroll_lines.rs:235): walks the height list accumulating `addOffset` and
`totalH`; on the first prefix whose accumulated height reaches `height` it
returns the updated vertical offset (minus 1 when the accumulation strictly
exceeds `height`) together with the accumulated height; if the list is
exhausted it returns the unchanged offset and the final accumulation. -/
def page_forward_loop (height v : Nat) :
    List Nat → Nat → Nat → Nat × Nat
  | [], _addOffset, totalH => (v, totalH)
  | h :: rest, addOffset, totalH =>
    if height ≤ totalH + h then
      (if height < totalH + h then v + (addOffset + 1) - 1 else v + (addOffset + 1),
        totalH + h)
    else
      page_forward_loop height v rest (addOffset + 1) (totalH + h)

/-- The `for` loop of the `PageBackward` arm of `handle_scroll_events`
(scroll_lines.rs:262): same walk, but the offset is decreased by the count
consumed, plus 1 back when the accumulation strictly exceeds `height`. -/
def page_backward_loop (height v : Nat) :
    List Nat → Nat → Nat → Nat × Nat
  | [], _subOffset, totalH => (v, totalH)
  | h :: rest, subOffset, totalH =>
    if height ≤ totalH + h then
      (if height < totalH + h then v - (subOffset + 1) + 1 else v - (subOffset + 1),
        totalH + h)
    else
      page_backward_loop height v rest (subOffset + 1) (totalH + h)

/-- The body of the `match state.scroll_event` in `handle_scroll_events`
(scroll_lines.rs:215), as a function of the matched event. All `usize`
saturating subtractions become truncated `Nat` subtraction, which agrees with
them. -/
def resolve_event (wc : String → Nat → Nat) (e : ScrollEvent)
    (state : ScrollLinesState) (width height : Nat) : ScrollLinesState :=
  match e with
  | ScrollEvent.none => state
  | ScrollEvent.forward =>
    if state.v_offset < state.lines.length - 1 then
      { state with v_offset := state.v_offset + 1 }
    else state
  | ScrollEvent.backward =>
    if 0 < state.v_offset then
      { state with v_offset := state.v_offset - 1 }
    else state
  | ScrollEvent.pageForward =>
    let line_heights := wrapped_line_width_iter wc state.original_lines
      state.v_offset width height state.options.wrap
    let r := page_forward_loop height state.v_offset line_heights 0 0
    if r.2 < height then
      { state with v_offset := state.lines.length - 1 }
    else
      { state with v_offset := r.1 }
  | ScrollEvent.pageBackward =>
    let line_heights := wrapped_reversed_line_width_iter wc state.original_lines
      state.v_offset width height state.options.wrap
    let r := page_backward_loop height state.v_offset line_heights 0 0
    if r.2 < height then
      { state with v_offset := 0 }
    else
      { state with v_offset := r.1 }
  | ScrollEvent.top => { state with v_offset := 0 }
  | ScrollEvent.toEnd => { state with v_offset := state.lines.length - 1 }
  | ScrollEvent.right =>
    if state.h_offset < state.max_line_width - 1 then
      { state with h_offset := state.h_offset + 1 }
    else state
  | ScrollEvent.left =>
    if 0 < state.h_offset then
      { state with h_offset := state.h_offset - 1 }
    else state

/-- `handle_scroll_events` (scroll_lines.rs:214): resolves the pending event
and unconditionally resets it to `None` (scroll_lines.rs:299). -/
def handle_scroll_events (wc : String → Nat → Nat) (state : ScrollLinesState)
    (width height : Nat) : ScrollLinesState :=
  { resolve_event wc state.scroll_event state width height with
    scroll_event := ScrollEvent.none }

/-- ratatui `Rect::inner` with `Margin::new(1, 1)` (scroll_lines.rs:126): the
whole rect collapses to zero when either dimension is below 2, otherwise both
dimensions shrink by 2. -/
def inner_dims (areaWidth areaHeight : Nat) : Nat × Nat :=
  if areaWidth < 2 ∨ areaHeight < 2 then (0, 0)
  else (areaWidth - 2, areaHeight - 2)

/-- The text width computation of `ScrollLines::render` (scroll_lines.rs:130,
136, 141). The horizontal layout `[Length(line_numbers_width), Min(0)]` gives
the second chunk the content width minus the gutter (0 when the gutter does
not fit). The source then computes `chunks[1].width as usize - 2`, an
unchecked `usize` subtraction: the embedding returns `none` exactly when that
subtraction underflows (a panic in the source). -/
def render_text_area_width (state : ScrollLinesState)
    (areaWidth areaHeight : Nat) : Option Nat :=
  let dims := inner_dims areaWidth areaHeight
  let line_numbers_width := if state.options.number then state.max_digits + 1 else 0
  let chunk1_width := dims.1 - line_numbers_width
  if chunk1_width < 2 then Option.none else Option.some (chunk1_width - 2)

/-- The state-updating part of `ScrollLines::render` (scroll_lines.rs:125):
computes the text width and the visible row count, then runs
`handle_scroll_events`; `none` when the width computation panics. -/
def render_update (wc : String → Nat → Nat) (state : ScrollLinesState)
    (areaWidth areaHeight : Nat) : Option ScrollLinesState :=
  match render_text_area_width state areaWidth areaHeight with
  | Option.none => Option.none
  | Option.some w =>
    Option.some (handle_scroll_events wc state w (inner_dims areaWidth areaHeight).2)

/-!
Claim-side definitions: a direct transcription of the page-scroll resolution
rule as the specification words it, to be compared with the embedded source.
-/

/-- The per-line rendered height as the spec words it: 1 when wrap is off,
else the word-wrap sub-line count at the given width, with a minimum of 1. -/
def line_height_spec (wc : String → Nat → Nat) (wrap : Bool) (width : Nat)
    (line : String) : Nat :=
  if wrap then max (wc line width) 1 else 1

/-- The accumulation walk of the spec: scan the height list and stop at the
first prefix whose accumulated height reaches or exceeds `H`, returning the
number of lines consumed and the accumulated height; `none` when the whole
list accumulates to less than `H`. -/
def page_walk_spec (H : Nat) : List Nat → Option (Nat × Nat)
  | [] => Option.none
  | h :: rest =>
    if H ≤ h then Option.some (1, h)
    else
      match page_walk_spec (H - h) rest with
      | Option.some (k, acc) => Option.some (k + 1, h + acc)
      | Option.none => Option.none

/-- `PageForward` resolution as the spec words it: walk forward from
`vertical_offset` over the rendered heights of all remaining lines; on the
first prefix reaching `H`, advance by the count consumed, minus 1 exactly when
the accumulation strictly exceeds `H`; if the walk exhausts the remaining
lines below `H`, jump to the last line. -/
def page_forward_spec (wc : String → Nat → Nat) (st : ScrollLinesState)
    (W H : Nat) : Nat :=
  let heights := (st.original_lines.drop st.v_offset).map
    (line_height_spec wc st.options.wrap W)
  match page_walk_spec H heights with
  | Option.some (k, acc) => st.v_offset + k - (if H < acc then 1 else 0)
  | Option.none => st.original_lines.length - 1

/-- `PageBackward` resolution as the spec words it: walk backward from
`vertical_offset` (exclusive) over the rendered heights; on the first prefix
reaching `H`, retreat by the count consumed, plus 1 back exactly when the
accumulation strictly exceeds `H`; if the accumulation never reaches `H`
before the start of the content, land on 0. -/
def page_backward_spec (wc : String → Nat → Nat) (st : ScrollLinesState)
    (W H : Nat) : Nat :=
  let heights := ((st.original_lines.take st.v_offset).reverse).map
    (line_height_spec wc st.options.wrap W)
  match page_walk_spec H heights with
  | Option.some (k, acc) => st.v_offset - k + (if H < acc then 1 else 0)
  | Option.none => 0

/-!
Concrete instances used to exercise the theorems below on closed inputs.
`wc1` is the wrap count of `textwrap::wrap` on any single short word (one
sub-line); `wc2` models a line wrapping to two sub-lines at every width.
-/

/-- Wrap count of a line that fits on one sub-line at the used width
(for example `textwrap::wrap` of a one-character line). -/
def wc1 : String → Nat → Nat := fun _ _ => 1

/-- Wrap count of a line occupying two sub-lines at the used width. -/
def wc2 : String → Nat → Nat := fun _ _ => 2

/-- Three one-character content lines. -/
def demo_lines : List String := ["a", "b", "c"]

/-- A freshly constructed state over `demo_lines`. -/
def demo_state : ScrollLinesState :=
  ScrollLinesState.new (demo_lines.map fun s => Line.mk s.length) demo_lines
    "t" { number := true, wrap := true }

/-- The demo state scrolled to its last line. -/
def demo_state_at2 : ScrollLinesState := { demo_state with v_offset := 2 }

/-!
Helper lemmas about the accumulation walk and the two source loops.
-/

/-- When the spec walk succeeds, the accumulated height reaches `H`. -/
theorem page_walk_spec_acc_ge (H : Nat) (l : List Nat) (k acc : Nat)
    (h : page_walk_spec H l = Option.some (k, acc)) : H ≤ acc := by
  induction l generalizing H k acc with
  | nil => exact absurd h (by simp [page_walk_spec])
  | cons x xs ih =>
    rw [page_walk_spec] at h
    by_cases hx : H ≤ x
    · rw [if_pos hx] at h
      cases h
      exact hx
    · rw [if_neg hx] at h
      cases hm : page_walk_spec (H - x) xs with
      | none => rw [hm] at h; cases h
      | some p =>
        obtain ⟨k0, acc0⟩ := p
        rw [hm] at h
        cases h
        have := ih (H - x) k0 acc0 hm
        omega

/-- For positive `H`, the spec walk fails exactly when the whole list
accumulates strictly below `H`. -/
theorem page_walk_spec_none_iff (H : Nat) (hH : 1 ≤ H) (l : List Nat) :
    page_walk_spec H l = Option.none ↔ l.sum < H := by
  induction l generalizing H with
  | nil => simp [page_walk_spec]; omega
  | cons x xs ih =>
    rw [page_walk_spec]
    by_cases hx : H ≤ x
    · rw [if_pos hx]
      simp [List.sum_cons]
      omega
    · rw [if_neg hx]
      have ih2 := ih (H - x) (by omega)
      cases hm : page_walk_spec (H - x) xs with
      | none =>
        simp only [hm, List.sum_cons]
        have hs := ih2.mp hm
        simp
        omega
      | some p =>
        obtain ⟨k0, acc0⟩ := p
        simp only [hm, List.sum_cons]
        have hns : ¬ xs.sum < H - x := fun hcon => by
          rw [ih2.mpr hcon] at hm
          cases hm
        simp
        omega

/-- Truncating the list at any index at least `H` does not change the walk,
provided every height is at least 1. -/
theorem page_walk_spec_take (H M : Nat) (hH : 1 ≤ H) (hM : H ≤ M)
    (l : List Nat) (hl : ∀ x ∈ l, 1 ≤ x) :
    page_walk_spec H (l.take M) = page_walk_spec H l := by
  induction l generalizing H M with
  | nil => simp
  | cons x xs ih =>
    obtain ⟨m, rfl⟩ : ∃ m, M = m + 1 := ⟨M - 1, by omega⟩
    rw [List.take_succ_cons, page_walk_spec, page_walk_spec]
    by_cases hx : H ≤ x
    · rw [if_pos hx, if_pos hx]
    · rw [if_neg hx, if_neg hx]
      have hx1 : 1 ≤ x := hl x (List.mem_cons_self x xs)
      rw [ih (H - x) m (by omega) (by omega)
        (fun y hy => hl y (List.mem_cons_of_mem x hy))]

/-- The `PageForward` loop of the source computes the spec walk: on success
the offset advances by the count consumed (minus 1 on strict overshoot), and
on failure the offset is untouched and the accumulated height is the full
sum. -/
theorem page_forward_loop_eq_walk (H v : Nat) (l : List Nat) (a t : Nat)
    (ht : t < H) :
    page_forward_loop H v l a t =
      match page_walk_spec (H - t) l with
      | Option.some (k, acc) =>
        (if H < t + acc then v + (a + k) - 1 else v + (a + k), t + acc)
      | Option.none => (v, t + l.sum) := by
  induction l generalizing a t with
  | nil => simp [page_forward_loop, page_walk_spec]
  | cons x xs ih =>
    rw [page_forward_loop, page_walk_spec]
    by_cases hx : H - t ≤ x
    · have h1 : H ≤ t + x := by omega
      rw [if_pos hx, if_pos h1]
    · have h1 : ¬ H ≤ t + x := by omega
      rw [if_neg hx, if_neg h1, ih (a + 1) (t + x) (by omega)]
      have hsub : H - t - x = H - (t + x) := by omega
      rw [hsub]
      cases hm : page_walk_spec (H - (t + x)) xs with
      | none => simp [List.sum_cons]; omega
      | some p =>
        obtain ⟨k0, acc0⟩ := p
        have hiff : (H < t + x + acc0) ↔ (H < t + (x + acc0)) := by omega
        simp only []
        rw [if_congr hiff (by omega : v + (a + 1 + k0) - 1 = v + (a + (k0 + 1)) - 1)
          (by omega : v + (a + 1 + k0) = v + (a + (k0 + 1)))]
        rw [(by omega : t + x + acc0 = t + (x + acc0))]

/-- The `PageBackward` loop of the source computes the spec walk, with the
offset decreased by the count consumed (plus 1 back on strict overshoot). -/
theorem page_backward_loop_eq_walk (H v : Nat) (l : List Nat) (a t : Nat)
    (ht : t < H) :
    page_backward_loop H v l a t =
      match page_walk_spec (H - t) l with
      | Option.some (k, acc) =>
        (if H < t + acc then v - (a + k) + 1 else v - (a + k), t + acc)
      | Option.none => (v, t + l.sum) := by
  induction l generalizing a t with
  | nil => simp [page_backward_loop, page_walk_spec]
  | cons x xs ih =>
    rw [page_backward_loop, page_walk_spec]
    by_cases hx : H - t ≤ x
    · have h1 : H ≤ t + x := by omega
      rw [if_pos hx, if_pos h1]
    · have h1 : ¬ H ≤ t + x := by omega
      rw [if_neg hx, if_neg h1, ih (a + 1) (t + x) (by omega)]
      have hsub : H - t - x = H - (t + x) := by omega
      rw [hsub]
      cases hm : page_walk_spec (H - (t + x)) xs with
      | none => simp [List.sum_cons]; omega
      | some p =>
        obtain ⟨k0, acc0⟩ := p
        have hiff : (H < t + x + acc0) ↔ (H < t + (x + acc0)) := by omega
        simp only []
        rw [if_congr hiff (by omega : v - (a + 1 + k0) + 1 = v - (a + (k0 + 1)) + 1)
          (by omega : v - (a + 1 + k0) = v - (a + (k0 + 1)))]
        rw [(by omega : t + x + acc0 = t + (x + acc0))]

/-- The sum of a prefix is at most the sum of the whole list. -/
theorem sum_take_le_sum (n : Nat) (l : List Nat) : (l.take n).sum ≤ l.sum := by
  have h := congrArg List.sum (List.take_append_drop n l)
  rw [List.sum_append] at h
  omega

/-!
Claim theorems.
-/

/-- C6 counterexample: construction with styled and plain sequences of unequal
length does not fail; `new` happily produces a state whose two sequences have
lengths 1 and 0, refuting both the assertion-breach reading and the
equal-length consequence for successfully constructed states. -/
theorem new_unequal_lengths_accepted :
    (ScrollLinesState.new [Line.mk 1] [] "t"
      { number := true, wrap := true }).lines.length = 1
    ∧ (ScrollLinesState.new [Line.mk 1] [] "t"
      { number := true, wrap := true }).original_lines.length = 0 :=
  ⟨rfl, rfl⟩

/-- C6 (amended): construction performs no validation at all; `new` succeeds
on any pair of sequences, storing both unchanged with offsets 0 and no pending
command, so index alignment is an unchecked caller obligation rather than an
enforced precondition. -/
theorem new_performs_no_validation (ls : List Line) (os : List String)
    (t : String) (o : ScrollLinesOptions) :
    (ScrollLinesState.new ls os t o).lines = ls
    ∧ (ScrollLinesState.new ls os t o).original_lines = os
    ∧ (ScrollLinesState.new ls os t o).v_offset = 0
    ∧ (ScrollLinesState.new ls os t o).h_offset = 0
    ∧ (ScrollLinesState.new ls os t o).scroll_event = ScrollEvent.none :=
  ⟨rfl, rfl, rfl, rfl, rfl⟩

/-- C7: the pending command is a one-shot cell. Every setter rewrites the
whole cell regardless of its prior content, changing nothing else
(last-writer-wins, no queueing); a render pass leaves the event reset to
`None`; and a second render pass with no intervening setter changes nothing
(the command is consumed at most once). -/
theorem scroll_event_one_shot (wc : String → Nat → Nat)
    (st : ScrollLinesState) (W H W2 H2 : Nat) :
    (st.scroll_forward = { st with scroll_event := ScrollEvent.forward }
      ∧ st.scroll_backward = { st with scroll_event := ScrollEvent.backward }
      ∧ st.scroll_page_forward = { st with scroll_event := ScrollEvent.pageForward }
      ∧ st.scroll_page_backward = { st with scroll_event := ScrollEvent.pageBackward }
      ∧ st.scroll_to_top = { st with scroll_event := ScrollEvent.top }
      ∧ st.scroll_to_end = { st with scroll_event := ScrollEvent.toEnd }
      ∧ st.scroll_right = { st with scroll_event := ScrollEvent.right }
      ∧ st.scroll_left = { st with scroll_event := ScrollEvent.left })
    ∧ (handle_scroll_events wc st W H).scroll_event = ScrollEvent.none
    ∧ handle_scroll_events wc (handle_scroll_events wc st W H) W2 H2
      = handle_scroll_events wc st W H :=
  ⟨⟨rfl, rfl, rfl, rfl, rfl, rfl, rfl, rfl⟩, rfl, rfl⟩

/-- C8: `toggle_wrap` flips `options.wrap` and zeroes the horizontal offset
(so two applications restore `options.wrap` and leave the horizontal offset 0
after each call), and `toggle_number` flips `options.number` while leaving
both offsets untouched. -/
theorem toggle_semantics (st : ScrollLinesState) :
    st.toggle_wrap
      = { st with
          options := { st.options with wrap := !st.options.wrap },
          h_offset := 0 }
    ∧ st.toggle_wrap.h_offset = 0
    ∧ st.toggle_wrap.toggle_wrap.options.wrap = st.options.wrap
    ∧ st.toggle_wrap.toggle_wrap.h_offset = 0
    ∧ st.toggle_number
      = { st with options := { st.options with number := !st.options.number } }
    ∧ st.toggle_number.v_offset = st.v_offset
    ∧ st.toggle_number.h_offset = st.h_offset := by
  refine ⟨rfl, rfl, ?_, rfl, rfl, rfl, rfl⟩
  simp [ScrollLinesState.toggle_wrap]

/-- C1 is violated by the source: from a freshly constructed single-line
state, one `scroll_page_forward` followed by one render pass (area 20 by 3,
hence one visible row and text width 14; `textwrap::wrap` of the line "a"
yields one sub-line, modelled by `wc1`) drives `vertical_offset` to 1 = N,
strictly above the claimed bound `max(N-1, 0) = 0`: the exact-fit page
forward walks past the last line. -/
theorem page_forward_exact_fit_escapes_bounds :
    (render_update wc1
        ((ScrollLinesState.new [Line.mk 1] ["a"] "TITLE"
          { number := true, wrap := true }).scroll_page_forward) 20 3).map
      ScrollLinesState.v_offset = Option.some 1
    ∧ (ScrollLinesState.new [Line.mk 1] ["a"] "TITLE"
        { number := true, wrap := true }).lines.length - 1 = 0 :=
  ⟨rfl, rfl⟩

/-- C5 is violated by the source: for a viewport of width 3 (content width 1
after the border margin) with line numbers disabled, the text width
computation `chunks[1].width as usize - 2` underflows (`none` in the
embedding, a panic in the source); no flooring to 1 takes place. -/
theorem render_text_width_underflows :
    render_text_area_width
      (ScrollLinesState.new [] [] "t" { number := false, wrap := true }) 3 9
      = Option.none :=
  rfl

/-- C9: for every state satisfying the data-model offset invariants, resolving
each single-step command yields exactly the clamped formula for its offset,
consumes the pending command, and changes nothing else. -/
theorem single_step_commands_clamped (wc : String → Nat → Nat)
    (st : ScrollLinesState) (W H : Nat)
    (hv : st.v_offset ≤ st.lines.length - 1)
    (hh : st.h_offset ≤ st.max_line_width - 1) :
    handle_scroll_events wc { st with scroll_event := ScrollEvent.forward } W H
      = { st with
          v_offset := min (st.v_offset + 1) (st.lines.length - 1),
          scroll_event := ScrollEvent.none }
    ∧ handle_scroll_events wc { st with scroll_event := ScrollEvent.backward } W H
      = { st with
          v_offset := st.v_offset - 1,
          scroll_event := ScrollEvent.none }
    ∧ handle_scroll_events wc { st with scroll_event := ScrollEvent.top } W H
      = { st with
          v_offset := 0,
          scroll_event := ScrollEvent.none }
    ∧ handle_scroll_events wc { st with scroll_event := ScrollEvent.toEnd } W H
      = { st with
          v_offset := st.lines.length - 1,
          scroll_event := ScrollEvent.none }
    ∧ handle_scroll_events wc { st with scroll_event := ScrollEvent.right } W H
      = { st with
          h_offset := min (st.h_offset + 1) (st.max_line_width - 1),
          scroll_event := ScrollEvent.none }
    ∧ handle_scroll_events wc { st with scroll_event := ScrollEvent.left } W H
      = { st with
          h_offset := st.h_offset - 1,
          scroll_event := ScrollEvent.none } := by
  refine ⟨?_, ?_, rfl, rfl, ?_, ?_⟩
  · simp only [handle_scroll_events, resolve_event]
    by_cases h : st.v_offset < st.lines.length - 1
    · rw [if_pos h,
        (by omega : min (st.v_offset + 1) (st.lines.length - 1) = st.v_offset + 1)]
    · rw [if_neg h,
        (by omega : min (st.v_offset + 1) (st.lines.length - 1) = st.v_offset)]
  · simp only [handle_scroll_events, resolve_event]
    by_cases h : 0 < st.v_offset
    · rw [if_pos h]
    · rw [if_neg h, (by omega : st.v_offset - 1 = st.v_offset)]
  · simp only [handle_scroll_events, resolve_event]
    by_cases h : st.h_offset < st.max_line_width - 1
    · rw [if_pos h,
        (by omega : min (st.h_offset + 1) (st.max_line_width - 1) = st.h_offset + 1)]
    · rw [if_neg h,
        (by omega : min (st.h_offset + 1) (st.max_line_width - 1) = st.h_offset)]
  · simp only [handle_scroll_events, resolve_event]
    by_cases h : 0 < st.h_offset
    · rw [if_pos h]
    · rw [if_neg h, (by omega : st.h_offset - 1 = st.h_offset)]

/-- C9 witness: the clamped formulas at a concrete in-range state. -/
theorem single_step_commands_clamped_w :
    demo_state.v_offset ≤ demo_state.lines.length - 1
    ∧ demo_state.h_offset ≤ demo_state.max_line_width - 1
    ∧ handle_scroll_events wc1 { demo_state with scroll_event := ScrollEvent.forward } 4 4
      = { demo_state with
          v_offset := min (demo_state.v_offset + 1) (demo_state.lines.length - 1),
          scroll_event := ScrollEvent.none } :=
  ⟨by decide, by decide,
    (single_step_commands_clamped wc1 demo_state 4 4 (by decide) (by decide)).1⟩

/-- C10: with wrap enabled, when the word-wrapped height of the line at
`vertical_offset` strictly exceeds the window height, resolving `PageForward`
consumes the command but leaves `vertical_offset` (and every other field)
unchanged. -/
theorem page_forward_stuck_on_tall_line (wc : String → Nat → Nat)
    (st : ScrollLinesState) (W H : Nat)
    (hev : st.scroll_event = ScrollEvent.pageForward)
    (hwrap : st.options.wrap = true)
    (hv : st.v_offset < st.original_lines.length)
    (htall : H < wc st.original_lines[st.v_offset] W) :
    handle_scroll_events wc st W H = { st with scroll_event := ScrollEvent.none } := by
  unfold handle_scroll_events
  rw [hev]
  simp only [resolve_event, wrapped_line_width_iter, hwrap, if_true]
  cases H with
  | zero =>
    simp [page_forward_loop]
  | succ hh =>
    rw [List.drop_eq_getElem_cons hv, List.take_succ_cons, List.map_cons,
      page_forward_loop]
    rw [if_pos (by omega : hh + 1 ≤ 0 + wc st.original_lines[st.v_offset] W),
      if_pos (by omega : hh + 1 < 0 + wc st.original_lines[st.v_offset] W)]
    rw [(by omega : st.v_offset + (0 + 1) - 1 = st.v_offset)]
    rw [if_neg (by omega : ¬ (st.v_offset, 0 + wc st.original_lines[st.v_offset] W).2 < hh + 1)]

/-- C2: `PageForward` resolution agrees exactly with the walk the spec
describes — stop at the first line whose accumulated rendered height reaches
`H`, advance by the count consumed, minus 1 exactly on strict overshoot, and
jump to the last line when the remaining lines accumulate below `H` — for
every state satisfying the data-model invariants (index-aligned sequences,
in-range vertical offset) and every wrap-count function that yields at least
one sub-line per line, as `textwrap::wrap` does. -/
theorem page_forward_matches_spec (wc : String → Nat → Nat)
    (st : ScrollLinesState) (W H : Nat)
    (hev : st.scroll_event = ScrollEvent.pageForward)
    (hlen : st.lines.length = st.original_lines.length)
    (hv : st.v_offset ≤ st.original_lines.length - 1)
    (hw : ∀ s, 1 ≤ wc s W) :
    handle_scroll_events wc st W H
      = { st with
          v_offset := page_forward_spec wc st W H,
          scroll_event := ScrollEvent.none } := by
  have hLspec :
      (st.original_lines.drop st.v_offset).map
        (line_height_spec wc st.options.wrap W)
      = (st.original_lines.drop st.v_offset).map
        (fun line => if st.options.wrap then wc line W else 1) :=
    List.map_congr_left fun l _ => by
      unfold line_height_spec
      cases st.options.wrap
      · simp
      · simp [Nat.max_eq_left (hw l)]
  have hL1 : ∀ x ∈ (st.original_lines.drop st.v_offset).map
      (fun line => if st.options.wrap then wc line W else 1), 1 ≤ x := by
    intro x hx
    obtain ⟨l, _, rfl⟩ := List.mem_map.mp hx
    cases st.options.wrap
    · simp
    · simpa using hw l
  unfold handle_scroll_events
  rw [hev]
  simp only [resolve_event, wrapped_line_width_iter]
  rw [List.map_take, hlen]
  unfold page_forward_spec
  rw [hLspec]
  rcases Nat.eq_zero_or_pos H with hH | hH
  · subst hH
    rw [List.take_zero]
    simp only [page_forward_loop]
    rw [if_neg (Nat.not_lt_zero _)]
    cases hL : (st.original_lines.drop st.v_offset).map
        (fun line => if st.options.wrap then wc line W else 1) with
    | nil =>
      simp only [page_walk_spec]
      have hdrop : st.original_lines.drop st.v_offset = [] :=
        List.map_eq_nil_iff.mp hL
      have h0 : st.original_lines.length ≤ st.v_offset := by
        by_contra hcon
        have : st.original_lines.drop st.v_offset ≠ [] := by
          apply List.ne_nil_of_length_pos
          rw [List.length_drop]
          omega
        exact this hdrop
      rw [(by omega : st.original_lines.length - 1 = st.v_offset)]
    | cons x xs =>
      have hx1 : 1 ≤ x := hL1 x (by rw [hL]; exact List.mem_cons_self x xs)
      have hm0 : page_walk_spec 0 (x :: xs) = Option.some (1, x) := by
        rw [page_walk_spec, if_pos (Nat.zero_le x)]
      simp only [hm0]
      rw [if_pos (by omega : 0 < x),
        (by omega : st.v_offset + 1 - 1 = st.v_offset)]
  · rw [page_forward_loop_eq_walk H st.v_offset _ 0 0 (by omega),
      Nat.sub_zero,
      page_walk_spec_take H H (by omega) (Nat.le_refl H) _ hL1]
    cases hm : page_walk_spec H ((st.original_lines.drop st.v_offset).map
        (fun line => if st.options.wrap then wc line W else 1)) with
    | some p =>
      obtain ⟨k, acc⟩ := p
      simp only [hm]
      have hacc := page_walk_spec_acc_ge H _ k acc hm
      have harith : (if H < 0 + acc then st.v_offset + (0 + k) - 1
            else st.v_offset + (0 + k))
          = st.v_offset + k - (if H < acc then 1 else 0) := by
        by_cases hlt : H < acc
        · rw [if_pos (by omega : H < 0 + acc), if_pos hlt]
          omega
        · rw [if_neg (by omega : ¬ H < 0 + acc), if_neg hlt]
          omega
      rw [if_neg (by omega : ¬ 0 + acc < H)]
      rw [harith]
    | none =>
      simp only [hm]
      have hsum := (page_walk_spec_none_iff H (by omega) _).mp hm
      have htake := sum_take_le_sum H ((st.original_lines.drop st.v_offset).map
        (fun line => if st.options.wrap then wc line W else 1))
      rw [if_pos (by omega :
        0 + (((st.original_lines.drop st.v_offset).map
          (fun line => if st.options.wrap then wc line W else 1)).take H).sum < H)]

/-- C2 witness: a three-line state paged forward in a two-row window with a
one-sub-line wrap count; the resolution equals the spec walk result. -/
theorem page_forward_matches_spec_w :
    demo_state.scroll_page_forward.scroll_event = ScrollEvent.pageForward
    ∧ demo_state.scroll_page_forward.lines.length
      = demo_state.scroll_page_forward.original_lines.length
    ∧ (∀ s, 1 ≤ wc1 s 5)
    ∧ handle_scroll_events wc1 demo_state.scroll_page_forward 5 2
      = { demo_state.scroll_page_forward with
          v_offset := page_forward_spec wc1 demo_state.scroll_page_forward 5 2,
          scroll_event := ScrollEvent.none } :=
  ⟨rfl, rfl, fun _ => Nat.le_refl 1,
    page_forward_matches_spec wc1 demo_state.scroll_page_forward 5 2 rfl rfl
      (by decide) (fun _ => Nat.le_refl 1)⟩

/-- C3: `PageBackward` resolution agrees exactly with the walk the spec
describes — walk backward from `vertical_offset`, exclusive of the current
top line, until the accumulated rendered height reaches `H`, retreat by the
count consumed, plus 1 back exactly on strict overshoot, and land on 0 when
the accumulation never reaches `H` before the start of the content — for
every state with an in-range vertical offset and every wrap-count function
yielding at least one sub-line per line. -/
theorem page_backward_matches_spec (wc : String → Nat → Nat)
    (st : ScrollLinesState) (W H : Nat)
    (hev : st.scroll_event = ScrollEvent.pageBackward)
    (hv : st.v_offset ≤ st.original_lines.length - 1)
    (hw : ∀ s, 1 ≤ wc s W) :
    handle_scroll_events wc st W H
      = { st with
          v_offset := page_backward_spec wc st W H,
          scroll_event := ScrollEvent.none } := by
  have hLspec :
      ((st.original_lines.take st.v_offset).reverse).map
        (line_height_spec wc st.options.wrap W)
      = ((st.original_lines.take st.v_offset).reverse).map
        (fun line => if st.options.wrap then wc line W else 1) :=
    List.map_congr_left fun l _ => by
      unfold line_height_spec
      cases st.options.wrap
      · simp
      · simp [Nat.max_eq_left (hw l)]
  have hL1 : ∀ x ∈ ((st.original_lines.take st.v_offset).reverse).map
      (fun line => if st.options.wrap then wc line W else 1), 1 ≤ x := by
    intro x hx
    obtain ⟨l, _, rfl⟩ := List.mem_map.mp hx
    cases st.options.wrap
    · simp
    · simpa using hw l
  unfold handle_scroll_events
  rw [hev]
  simp only [resolve_event, wrapped_reversed_line_width_iter]
  rw [List.map_take]
  unfold page_backward_spec
  rw [hLspec]
  rcases Nat.eq_zero_or_pos H with hH | hH
  · subst hH
    rw [List.take_zero]
    simp only [page_backward_loop]
    rw [if_neg (Nat.not_lt_zero _)]
    cases hL : ((st.original_lines.take st.v_offset).reverse).map
        (fun line => if st.options.wrap then wc line W else 1) with
    | nil =>
      simp only [page_walk_spec]
      have htk : st.original_lines.take st.v_offset = [] := by
        have := List.map_eq_nil_iff.mp hL
        rwa [List.reverse_eq_nil_iff] at this
      have hv0 : st.v_offset = 0 := by
        rcases List.take_eq_nil_iff.mp htk with h | h
        · exact h
        · have : st.original_lines.length = 0 := by rw [h]; rfl
          omega
      simp [hv0]
    | cons x xs =>
      have hx1 : 1 ≤ x := hL1 x (by rw [hL]; exact List.mem_cons_self x xs)
      have hv1 : st.v_offset ≠ 0 := by
        intro h0
        rw [h0] at hL
        simp at hL
      have hm0 : page_walk_spec 0 (x :: xs) = Option.some (1, x) := by
        rw [page_walk_spec, if_pos (Nat.zero_le x)]
      simp only [hm0]
      rw [if_pos (by omega : 0 < x),
        (by omega : st.v_offset - 1 + 1 = st.v_offset)]
  · rw [page_backward_loop_eq_walk H st.v_offset _ 0 0 (by omega),
      Nat.sub_zero,
      page_walk_spec_take H H (by omega) (Nat.le_refl H) _ hL1]
    cases hm : page_walk_spec H (((st.original_lines.take st.v_offset).reverse).map
        (fun line => if st.options.wrap then wc line W else 1)) with
    | some p =>
      obtain ⟨k, acc⟩ := p
      simp only [hm]
      have hacc := page_walk_spec_acc_ge H _ k acc hm
      have harith : (if H < 0 + acc then st.v_offset - (0 + k) + 1
            else st.v_offset - (0 + k))
          = st.v_offset - k + (if H < acc then 1 else 0) := by
        by_cases hlt : H < acc
        · rw [if_pos (by omega : H < 0 + acc), if_pos hlt]
          omega
        · rw [if_neg (by omega : ¬ H < 0 + acc), if_neg hlt]
          omega
      rw [if_neg (by omega : ¬ 0 + acc < H)]
      rw [harith]
    | none =>
      simp only [hm]
      have hsum := (page_walk_spec_none_iff H (by omega) _).mp hm
      have htake := sum_take_le_sum H
        (((st.original_lines.take st.v_offset).reverse).map
          (fun line => if st.options.wrap then wc line W else 1))
      rw [if_pos (by omega :
        0 + ((((st.original_lines.take st.v_offset).reverse).map
          (fun line => if st.options.wrap then wc line W else 1)).take H).sum < H)]

/-- C3 witness: the demo state at its last line paged backward in a two-row
window; the resolution equals the spec walk result. -/
theorem page_backward_matches_spec_w :
    demo_state_at2.scroll_page_backward.scroll_event = ScrollEvent.pageBackward
    ∧ (∀ s, 1 ≤ wc1 s 5)
    ∧ handle_scroll_events wc1 demo_state_at2.scroll_page_backward 5 2
      = { demo_state_at2.scroll_page_backward with
          v_offset := page_backward_spec wc1 demo_state_at2.scroll_page_backward 5 2,
          scroll_event := ScrollEvent.none } :=
  ⟨rfl, fun _ => Nat.le_refl 1,
    page_backward_matches_spec wc1 demo_state_at2.scroll_page_backward 5 2 rfl
      (by decide) (fun _ => Nat.le_refl 1)⟩

/-- C10 witness: a three-line state whose top line wraps to two sub-lines in a
one-row window; page forward is consumed without moving. -/
theorem page_forward_stuck_on_tall_line_w :
    demo_state.scroll_page_forward.scroll_event = ScrollEvent.pageForward
    ∧ demo_state.scroll_page_forward.options.wrap = true
    ∧ handle_scroll_events wc2 demo_state.scroll_page_forward 1 1
      = { demo_state.scroll_page_forward with scroll_event := ScrollEvent.none } :=
  ⟨rfl, rfl,
    page_forward_stuck_on_tall_line wc2 demo_state.scroll_page_forward 1 1 rfl rfl
      (by decide) (by decide)⟩

end Stu
